import Mathlib

/-!
Verification of the pin-chat-gpt-conversation browser extension.

The repository ships two generations of its service classes side by side:
an older, unvalidated generation (`ChatHistoryStorage` in part_002, the first
`URLTracker` in part_004) and the current validated generation (part_003 and
the second `URLTracker` in part_004) that throws the custom errors declared
in `errors.js`.  Both are embedded here; definitions carrying a `B` suffix
model the basic/unvalidated generation, a `V` suffix the validated one.

JavaScript objects with string keys preserve insertion order, so the pinned
conversation map is embedded as an association list.  Machine details that
no claim touches (string coercion images of non-string values, storage quota
failures on `setItem`) are noted at the definition they concern.
-/

namespace PinChat

/-- Error taxonomy of `errors.js` plus `rawError` for native JavaScript
errors (for example a `SyntaxError` escaping `JSON.parse`, or an error
thrown by `localStorage` itself) that no wrapper class intercepts. -/
inductive JsErr where
  | validationError (msg : String)
  | storageError (msg : String)
  | urlError (msg : String)
  | rawError (msg : String)
deriving DecidableEq, Repr

/-- A JavaScript value appearing as an `id`/`title` argument: either a string,
or a non-string value carrying its truthiness and the string it coerces to
when used as a property key. -/
inductive JsArg where
  | str (s : String)
  | nonStr (truthy : Bool) (coerced : String)
deriving DecidableEq, Repr

/-- JavaScript truthiness of an argument (`""` is falsy, every other string
is truthy; non-strings carry their truthiness). -/
def JsArg.toBool : JsArg → Bool
  | .str s => s != ""
  | .nonStr t _ => t

/-- `typeof x === "string"`. -/
def JsArg.isString : JsArg → Bool
  | .str _ => true
  | .nonStr _ _ => false

/-- The string image of the value when used as an object property key. -/
def JsArg.coerce : JsArg → String
  | .str s => s
  | .nonStr _ c => c

/-- `this.pinnedConversations`: a JavaScript object mapping conversation ids
to titles, with insertion order preserved (the iteration order of string
keys). -/
abbrev PinnedMap := List (String × String)

/-- `k in m` for a JavaScript object. -/
def hasKey (m : PinnedMap) (k : String) : Bool :=
  m.any (fun e => e.1 == k)

/-- `m[k] = v`: updates in place when the key exists, otherwise appends
(JavaScript string-keyed property insertion order). -/
def insertKey (m : PinnedMap) (k v : String) : PinnedMap :=
  if m.any (fun e => e.1 == k) then
    m.map (fun e => if e.1 == k then (k, v) else e)
  else m ++ [(k, v)]

/-- `delete m[k]`. -/
def deleteKey (m : PinnedMap) (k : String) : PinnedMap :=
  m.filter (fun e => !(e.1 == k))

/-! ### JSON serialization (`JSON.stringify` on the pinned map) -/

/-- Left brace character (0x7b). -/
def lbrace : Char := Char.ofNat 123

/-- Right brace character (0x7d). -/
def rbrace : Char := Char.ofNat 125

/-- Lowercase hex digit, as emitted by `JSON.stringify` unicode escapes. -/
def hexDigit (n : Nat) : Char :=
  if n < 10 then Char.ofNat (48 + n) else Char.ofNat (87 + n)

/-- `JSON.stringify` quoting of one character: `"` and `\` are escaped, the
five named control escapes are used, remaining control characters become
`\u00XX`, everything else is emitted literally. -/
def escapeChar (c : Char) : List Char :=
  if c = '"' then ['\\', '"']
  else if c = '\\' then ['\\', '\\']
  else if c.toNat = 8 then ['\\', 'b']
  else if c.toNat = 9 then ['\\', 't']
  else if c.toNat = 10 then ['\\', 'n']
  else if c.toNat = 12 then ['\\', 'f']
  else if c.toNat = 13 then ['\\', 'r']
  else if c.toNat < 32 then
    ['\\', 'u', '0', '0', hexDigit (c.toNat / 16), hexDigit (c.toNat % 16)]
  else [c]

/-- The quoted JSON form of a string, `"…"`. -/
def quoteString (s : String) : List Char :=
  '"' :: (s.data.flatMap escapeChar ++ ['"'])

/-- One `"key":"value"` member. -/
def stringifyEntry (e : String × String) : List Char :=
  quoteString e.1 ++ ':' :: quoteString e.2

/-- The comma-separated member list of the serialized object. -/
def stringifyMembers : PinnedMap → List Char
  | [] => []
  | [e] => stringifyEntry e
  | e :: m => stringifyEntry e ++ ',' :: stringifyMembers m

/-- `JSON.stringify(this.pinnedConversations)`. -/
def stringifyPinned (m : PinnedMap) : String :=
  String.mk (lbrace :: (stringifyMembers m ++ [rbrace]))

/-! ### JSON parsing (`JSON.parse` on the stored blob)

`JSON.parse` is modelled on the value shapes this extension ever stores or
reads back: the `null` literal (what `localStorage.getItem` yields for an
absent key once coerced) and flat objects whose values are strings.  Any
other input — including well-formed JSON of a different shape, which the
surrounding code never produces — is mapped to `none` (a parse failure). -/

/-- JSON insignificant whitespace. -/
def isWs (c : Char) : Bool :=
  c = ' ' || c = '\t' || c = '\n' || c = '\r'

/-- Skip leading JSON whitespace. -/
def skipWs : List Char → List Char
  | [] => []
  | c :: cs => if isWs c then skipWs cs else c :: cs

/-- Value of a hex digit accepted inside a `\uXXXX` escape. -/
def hexVal (c : Char) : Option Nat :=
  if 48 ≤ c.toNat ∧ c.toNat ≤ 57 then some (c.toNat - 48)
  else if 97 ≤ c.toNat ∧ c.toNat ≤ 102 then some (c.toNat - 87)
  else if 65 ≤ c.toNat ∧ c.toNat ≤ 70 then some (c.toNat - 55)
  else none

/-- Parse the body of a JSON string after its opening quote, accumulating
characters in reverse.  Follows the JSON grammar: an unescaped control
character is an error, escapes are the nine JSON ones; a `\uXXXX` escape
denoting a surrogate code unit is rejected (the model works with Unicode
scalar values; the extension never stores lone surrogates).  `fuel` bounds
the number of (possibly escaped) characters read; every recursive step
consumes at least one input character, so the `input.length + 1` passed by
`parseJString` never runs out before the input does and the bound never
changes the result. -/
def parseStringAux : Nat → List Char → List Char → Option (String × List Char)
  | 0, _, _ => none
  | _ + 1, [], _ => none
  | fuel + 1, c :: cs, acc =>
    if c = '"' then some (String.mk acc.reverse, cs)
    else if c = '\\' then
      match cs with
      | [] => none
      | e :: cs2 =>
        if e = '"' then parseStringAux fuel cs2 ('"' :: acc)
        else if e = '\\' then parseStringAux fuel cs2 ('\\' :: acc)
        else if e = '/' then parseStringAux fuel cs2 ('/' :: acc)
        else if e = 'b' then parseStringAux fuel cs2 (Char.ofNat 8 :: acc)
        else if e = 'f' then parseStringAux fuel cs2 (Char.ofNat 12 :: acc)
        else if e = 'n' then parseStringAux fuel cs2 (Char.ofNat 10 :: acc)
        else if e = 'r' then parseStringAux fuel cs2 (Char.ofNat 13 :: acc)
        else if e = 't' then parseStringAux fuel cs2 (Char.ofNat 9 :: acc)
        else if e = 'u' then
          match cs2 with
          | h1 :: h2 :: h3 :: h4 :: cs3 =>
            match hexVal h1, hexVal h2, hexVal h3, hexVal h4 with
            | some a, some b, some c2, some d =>
              let n := ((a * 16 + b) * 16 + c2) * 16 + d
              if n < 55296 then parseStringAux fuel cs3 (Char.ofNat n :: acc)
              else if 57344 ≤ n then parseStringAux fuel cs3 (Char.ofNat n :: acc)
              else none
            | _, _, _, _ => none
          | _ => none
        else none
    else if c.toNat < 32 then none
    else parseStringAux fuel cs (c :: acc)

/-- Parse a complete JSON string token, opening quote included. -/
def parseJString : List Char → Option (String × List Char)
  | [] => none
  | c :: cs => if c = '"' then parseStringAux (cs.length + 1) cs [] else none

/-- Parse one `"key" : "value"` member. -/
def parseMember (input : List Char) : Option ((String × String) × List Char) :=
  match parseJString input with
  | none => none
  | some (k, r1) =>
    match skipWs r1 with
    | [] => none
    | c :: r2 =>
      if c = ':' then
        match parseJString (skipWs r2) with
        | none => none
        | some (v, r3) => some ((k, v), r3)
      else none

/-- Parse the members of a non-empty object, `"k":"v"` pairs separated by
commas, up to and including the closing brace.  `fuel` bounds the number of
members; since every member consumes at least one character, callers pass
`input.length + 1`, which can never run out before the input does, so the
bound never changes the result. -/
def parseMembersAux : Nat → List Char → PinnedMap → Option (PinnedMap × List Char)
  | 0, _, _ => none
  | fuel + 1, input, acc =>
    match parseMember input with
    | none => none
    | some ((k, v), r3) =>
      match skipWs r3 with
      | [] => none
      | c2 :: r4 =>
        if c2 = ',' then parseMembersAux fuel (skipWs r4) (acc ++ [(k, v)])
        else if c2 = rbrace then some (acc ++ [(k, v)], r4)
        else none

/-- Parse a flat JSON object of string values, requiring the whole input to
be consumed (as `JSON.parse` does). -/
def parsePinned (s : String) : Option PinnedMap :=
  match skipWs s.data with
  | [] => none
  | c :: r =>
    if c = lbrace then
      match skipWs r with
      | [] => none
      | c2 :: r2 =>
        if c2 = rbrace then (if skipWs r2 = [] then some [] else none)
        else
          match parseMembersAux (r.length + 1) (c2 :: r2) [] with
          | some (m, rest) => if skipWs rest = [] then some m else none
          | none => none
    else none

/-- `JSON.parse` on a stored blob: `some none` is the JavaScript value
`null`, `some (some m)` a flat object of string values, `none` a parse
failure. -/
def parseTop (s : String) : Option (Option PinnedMap) :=
  if (skipWs s.data).take 4 = ['n', 'u', 'l', 'l']
      ∧ skipWs ((skipWs s.data).drop 4) = [] then some none
  else (parsePinned s).map some

/-! ### The storage service (`ChatHistoryStorage`, both generations) -/

/-- Result of `localStorage.getItem("pinnedConversations")`: the call can
throw, return `null` (key absent), or return the stored blob. -/
inductive GetResult where
  | throws
  | value (v : Option String)
deriving DecidableEq, Repr

/-- Unvalidated `loadPinnedConversations` (part_002):
`JSON.parse(localStorage.getItem(...)) ?? {}`.  An absent key coerces to the
string `"null"`, which parses to `null`, and `?? {}` turns it into the empty
object.  Errors from storage or `JSON.parse` propagate unwrapped. -/
def loadPinnedConversationsB : GetResult → Except JsErr PinnedMap
  | .throws => .error (.rawError "localStorage.getItem threw")
  | .value none => .ok []
  | .value (some s) =>
    match parseTop s with
    | some (some m) => .ok m
    | some none => .ok []
    | none => .error (.rawError "SyntaxError: JSON.parse")

/-- Validated `loadPinnedConversations` (part_003): falsy data (absent key
or empty string) yields `{}`; any error thrown inside the `try` block —
from `getItem` or from `JSON.parse` — is wrapped in a `StorageError`.
`ok none` is the JavaScript value `null`, returned verbatim when the blob
is the literal `null`. -/
def loadPinnedConversationsV : GetResult → Except JsErr (Option PinnedMap)
  | .throws => .error (.storageError "Error accessing local storage")
  | .value none => .ok (some [])
  | .value (some s) =>
    if s = "" then .ok (some [])
    else
      match parseTop s with
      | some v => .ok v
      | none => .error (.storageError "Error accessing local storage")

/-- The state of a `ChatHistoryStorage` instance: the in-memory map and the
blob currently persisted under the `pinnedConversations` key. -/
structure StoreState where
  mem : PinnedMap
  blob : Option String
deriving DecidableEq, Repr

/-- `savePinnedConversations`: rewrite the full serialized blob.  `setItem`
is modelled as succeeding (quota failures are outside every claim). -/
def savePinnedConversations (mem : PinnedMap) : Option String :=
  some (stringifyPinned mem)

/-- Unvalidated `isConversationPinned` (part_002): `id in map` (the key is
coerced to a string). -/
def isConversationPinnedB (m : PinnedMap) (id : JsArg) : Bool :=
  hasKey m id.coerce

/-- Validated `isConversationPinned` (part_003): throws a `ValidationError`
on a falsy or non-string id, otherwise tests key membership. -/
def isConversationPinnedV (m : PinnedMap) (id : JsArg) : Except JsErr Bool :=
  if !id.toBool || !id.isString then
    .error (.validationError "Invalid conversation ID")
  else .ok (hasKey m id.coerce)

/-- Unvalidated `pinConversation` (part_002): returns `false` on a falsy id
or title or an already-pinned id, otherwise inserts and persists.  A truthy
non-string argument passes the guard and is stored under its string
coercion, which no claim exercises with a non-string. -/
def pinConversationB (st : StoreState) (id title : JsArg) : Bool × StoreState :=
  if !id.toBool || !title.toBool || isConversationPinnedB st.mem id then (false, st)
  else
    let mem := insertKey st.mem id.coerce title.coerce
    (true, { mem, blob := savePinnedConversations mem })

/-- Unvalidated `unpinConversation` (part_002). -/
def unpinConversationB (st : StoreState) (id : JsArg) : Bool × StoreState :=
  if !id.toBool || !isConversationPinnedB st.mem id then (false, st)
  else
    let mem := deleteKey st.mem id.coerce
    (true, { mem, blob := savePinnedConversations mem })

/-- `validateConversationData` (part_003): rejects a falsy or non-string id,
then a falsy or non-string title, then an already-pinned id. -/
def validateConversationData (m : PinnedMap) (id title : JsArg) : Except JsErr Unit :=
  if !id.toBool || !id.isString then
    .error (.validationError "Invalid conversation ID")
  else if !title.toBool || !title.isString then
    .error (.validationError "Invalid conversation title")
  else
    match isConversationPinnedV m id with
    | .error e => .error e
    | .ok true => .error (.validationError "Conversation is already pinned")
    | .ok false => .ok ()

/-- Validated `pinConversation` (part_003): validation errors are rethrown
by the surrounding `catch`; on success the entry is inserted and persisted
and `true` is returned.  (`savePinnedConversations` is modelled as
succeeding, so the `StorageError` rewrap branch of the `catch` is never
taken.) -/
def pinConversationV (st : StoreState) (id title : JsArg) :
    Except JsErr (Bool × StoreState) :=
  match validateConversationData st.mem id title with
  | .error e => .error e
  | .ok () =>
    let mem := insertKey st.mem id.coerce title.coerce
    .ok (true, { mem, blob := savePinnedConversations mem })

/-- Validated `unpinConversation` (part_003): throws on an invalid id and on
an id that is not currently pinned, otherwise removes and persists. -/
def unpinConversationV (st : StoreState) (id : JsArg) :
    Except JsErr (Bool × StoreState) :=
  if !id.toBool || !id.isString then
    .error (.validationError "Invalid conversation ID")
  else
    match isConversationPinnedV st.mem id with
    | .error e => .error e
    | .ok pinned =>
      if !pinned then .error (.validationError "Conversation is not pinned")
      else
        let mem := deleteKey st.mem id.coerce
        .ok (true, { mem, blob := savePinnedConversations mem })

/-- A pin or unpin request with string arguments, as the UI emits them. -/
inductive PinOp where
  | pin (id title : String)
  | unpin (id : String)
deriving DecidableEq, Repr

/-- Apply one operation through the unvalidated store; an unsuccessful
operation is exactly a no-op, so the states reachable this way are the
states reachable by sequences of successful operations. -/
def applyOp (st : StoreState) : PinOp → StoreState
  | .pin id title => (pinConversationB st (.str id) (.str title)).2
  | .unpin id => (unpinConversationB st (.str id)).2

/-- Run a sequence of pin/unpin operations. -/
def runOps (ops : List PinOp) (st : StoreState) : StoreState :=
  ops.foldl applyOp st

/-! ### The event bus (`EventManager` in ChatHistoryUI.js)

Handler functions are identified by numbers.  Each `on` call wraps the
handler in a fresh object literal `{handler, once}`; object identity is
modelled by a `token` drawn from an allocation counter, because the `Set`
stored per event type compares its elements by reference. -/

/-- One element of the per-event `Set`: the object `{handler, once}`
allocated by `on`, identified by its allocation `token`. -/
structure Entry where
  token : Nat
  handler : Nat
  once : Bool
deriving DecidableEq, Repr

/-- The `EventManager` state: the `eventHandlers` map (insertion ordered,
keys distinct) and the allocation counter supplying fresh object
identities. -/
structure EMState where
  handlers : List (String × List Entry)
  nextToken : Nat
deriving DecidableEq, Repr

/-- A fresh `EventManager`. -/
def emptyEM : EMState := ⟨[], 0⟩

/-- `Map.get`: the entry set registered for an event type, empty when the
key is absent. -/
def entriesOf (st : EMState) (ev : String) : List Entry :=
  ((st.handlers.find? (fun p => p.1 == ev)).map (fun p => p.2)).getD []

/-- The handler functions registered for an event type, in registration
order. -/
def handlersOf (st : EMState) (ev : String) : List Nat :=
  (entriesOf st ev).map Entry.handler

/-- `Map.set`: overwrite the entry list of an existing key in place, or
append a new key. -/
def setEntries (hs : List (String × List Entry)) (ev : String)
    (l : List Entry) : List (String × List Entry) :=
  if hs.any (fun p => p.1 == ev) then
    hs.map (fun p => if p.1 == ev then (ev, l) else p)
  else hs ++ [(ev, l)]

/-- `EventManager.on`: ensure a `Set` exists for the event type, then add a
freshly allocated `{handler, once}` object (sets iterate in insertion
order). -/
def EventManager.on (st : EMState) (ev : String) (h : Nat) (once : Bool) :
    EMState :=
  { handlers := setEntries st.handlers ev
      (entriesOf st ev ++ [⟨st.nextToken, h, once⟩]),
    nextToken := st.nextToken + 1 }

/-- `Set.delete` removes the element that is reference-equal to the
argument. -/
def setDelete (es : List Entry) (tok : Nat) : List Entry :=
  es.filter (fun e => !(e.token == tok))

/-- `EventManager.off`: for every stored entry whose `handler` equals the
argument, the code calls `handlers.delete({ handler: h })` — each call
passes a newly allocated object literal, so the deletion is by the fresh
identity of the fresh object, never the identity of a stored entry. -/
def EventManager.off (st : EMState) (ev : String) (h : Nat) : EMState :=
  match st.handlers.find? (fun p => p.1 == ev) with
  | none => st
  | some p =>
    let matching := p.2.filter (fun e => e.handler == h)
    let es := (List.range matching.length).foldl
      (fun es i => setDelete es (st.nextToken + i)) p.2
    { handlers := setEntries st.handlers ev es,
      nextToken := st.nextToken + matching.length }

/-- The outcome of one `emit`: the resulting manager state, the handlers
invoked in order, and the handlers whose exception was caught and logged. -/
structure EmitResult where
  state : EMState
  invoked : List Nat
  logged : List Nat
deriving DecidableEq, Repr

/-- The loop body of `emit`: the handler of each entry is called inside `try`;
if it throws, the error is logged and (the call being inside the `try`,
before the throw was caught) the `once` removal is skipped; otherwise a
`once` entry is passed to `off`.  The iteration runs over the entry list
unperturbed, since `off` never removes a stored entry
(`EventManager_off_handlers` below). -/
def runHandlers (throws : Nat → Bool) (ev : String) :
    EMState → List Entry → EmitResult
  | st, [] => ⟨st, [], []⟩
  | st, e :: rest =>
    if throws e.handler then
      let r := runHandlers throws ev st rest
      ⟨r.state, e.handler :: r.invoked, e.handler :: r.logged⟩
    else
      let st1 := if e.once then EventManager.off st ev e.handler else st
      let r := runHandlers throws ev st1 rest
      ⟨r.state, e.handler :: r.invoked, r.logged⟩

/-- `EventManager.emit`: invoke every handler registered for the event
type.  `throws` tells which handler functions raise when called. -/
def EventManager.emit (st : EMState) (ev : String) (throws : Nat → Bool) :
    EmitResult :=
  runHandlers throws ev st (entriesOf st ev)

/-- Well-formedness of a manager state: every stored object token was
allocated before the current counter, and map keys are distinct.  Both hold
for every state built by the API from `emptyEM`. -/
def EMState.wf (st : EMState) : Prop :=
  (∀ p ∈ st.handlers, ∀ e ∈ p.2, e.token < st.nextToken)
  ∧ (st.handlers.map (fun p => p.1)).Nodup

instance (st : EMState) : Decidable st.wf := by
  unfold EMState.wf
  infer_instance

/-- A small sample manager: handler `1` registered normally, handler `2`
registered with `once: true` (as `waitForEvent` registers its internal
handler), both on the event type `"e"`. -/
def sampleEM : EMState :=
  EventManager.on (EventManager.on emptyEM "e" 1 false) "e" 2 true

/-! ### The location watcher (`URLTracker`, both generations) -/

/-- The matcher value handed to the `URLTracker` constructor: a `RegExp`
object, or any value that is not one. -/
inductive JsPattern where
  | regExp (id : Nat)
  | notRegExp
deriving DecidableEq, Repr

/-- `pattern instanceof RegExp`. -/
def JsPattern.isRegExp : JsPattern → Bool
  | .regExp _ => true
  | .notRegExp => false

/-- The callback value handed to `setupOnChangeCallback`. -/
inductive JsCallback where
  | func (id : Nat)
  | notFunc
deriving DecidableEq, Repr

/-- `typeof callback === "function"`. -/
def JsCallback.isFunction : JsCallback → Bool
  | .func _ => true
  | .notFunc => false

/-- A constructed `URLTracker`: its pattern, its registered callback
(`none` is the JavaScript `null`), and whether a `MutationObserver` is
attached to the title element. -/
structure URLTrackerState where
  pattern : JsPattern
  onChangeCallback : Option JsCallback
  observing : Bool
deriving DecidableEq, Repr

/-- Unvalidated `URLTracker` constructor (part_004, first class): accepts
any matcher; `init` observes the title element when present and otherwise
silently does nothing. -/
def URLTracker.constructB (titleExists : Bool) (pattern : JsPattern) :
    URLTrackerState :=
  { pattern, onChangeCallback := none, observing := titleExists }

/-- Unvalidated `setupOnChangeCallback`: stores any value, function or
not. -/
def URLTracker.setupOnChangeCallbackB (st : URLTrackerState)
    (cb : JsCallback) : URLTrackerState :=
  { st with onChangeCallback := some cb }

/-- Validated `URLTracker` constructor (part_004, second class): a
non-`RegExp` matcher throws a `URLError` before any field is assigned or
any observer attached; with a valid matcher, `init` throws a `URLError`
when the title element is missing, else attaches the observer. -/
def URLTracker.constructV (titleExists : Bool) (pattern : JsPattern) :
    Except JsErr URLTrackerState :=
  if !pattern.isRegExp then .error (.urlError "Invalid URL pattern provided")
  else if titleExists then
    .ok { pattern, onChangeCallback := none, observing := true }
  else .error (.urlError "Failed to initialize URL tracker")

/-- Validated `setupOnChangeCallback`: a non-function throws a `URLError`
before the assignment, leaving the callback registration untouched. -/
def URLTracker.setupOnChangeCallbackV (st : URLTrackerState)
    (cb : JsCallback) : Except JsErr URLTrackerState :=
  if !cb.isFunction then .error (.urlError "Invalid callback provided")
  else .ok { st with onChangeCallback := some cb }

/-! ## Helper lemmas -/

theorem hasKey_eq_false_iff (m : PinnedMap) (k : String) :
    hasKey m k = false ↔ ∀ e ∈ m, e.1 ≠ k := by
  simp [hasKey]

theorem hasKey_append_self (m : PinnedMap) (k v : String) :
    hasKey (m ++ [(k, v)]) k = true := by
  simp [hasKey]

theorem insertKey_of_not_hasKey (m : PinnedMap) (k v : String)
    (h : hasKey m k = false) : insertKey m k v = m ++ [(k, v)] := by
  unfold insertKey
  rw [if_neg]
  simp only [hasKey] at h
  simp [h]

theorem deleteKey_append_self (m : PinnedMap) (k v : String)
    (h : hasKey m k = false) : deleteKey (m ++ [(k, v)]) k = m := by
  rw [hasKey_eq_false_iff] at h
  unfold deleteKey
  rw [List.filter_append]
  have h1 : m.filter (fun e => !(e.1 == k)) = m := by
    apply List.filter_eq_self.mpr
    intro e he
    simpa using h e he
  have h2 : [(k, v)].filter (fun e => !(e.1 == k)) = [] := by simp
  rw [h1, h2, List.append_nil]

/-! ## Claims about the persistence store -/

/-- Claim C1 (amended).  Pinning an already-pinned id leaves the store
unchanged in both generations of `ChatHistoryStorage`; the unvalidated
generation reports this by returning `false`, while the validated
generation raises a `ValidationError` ("Conversation is already pinned")
instead of returning `false`. -/
theorem pin_already_pinned (st : StoreState) (id title : String)
    (hid : id ≠ "") (htitle : title ≠ "") (hp : hasKey st.mem id = true) :
    pinConversationB st (.str id) (.str title) = (false, st)
    ∧ pinConversationV st (.str id) (.str title)
        = .error (.validationError "Conversation is already pinned") := by
  constructor
  · simp [pinConversationB, isConversationPinnedB, JsArg.coerce, hp]
  · simp [pinConversationV, validateConversationData, isConversationPinnedV,
      JsArg.toBool, JsArg.isString, JsArg.coerce, hid, htitle, hp]

/-- Claim C1 witness: a store with `"a"` pinned, re-pinned with a fresh
title. -/
theorem pin_already_pinned_witness :
    ("a" : String) ≠ "" ∧ ("u" : String) ≠ ""
    ∧ hasKey [("a", "t")] "a" = true
    ∧ (pinConversationB ⟨[("a", "t")], none⟩ (.str "a") (.str "u")
        = (false, ⟨[("a", "t")], none⟩)
      ∧ pinConversationV ⟨[("a", "t")], none⟩ (.str "a") (.str "u")
        = .error (.validationError "Conversation is already pinned")) :=
  ⟨by decide, by decide, by decide,
    pin_already_pinned ⟨[("a", "t")], none⟩ "a" "u"
      (by decide) (by decide) (by decide)⟩

/-- Claim C1 counterexample.  The claim says re-pinning an already-pinned id
"returns false … (a no-op, not an error)"; the validated
`ChatHistoryStorage.pinConversation` (part_003) instead raises a
`ValidationError` at this concrete input. -/
theorem pin_already_pinned_claim_cex :
    pinConversationV ⟨[("a", "t")], none⟩ (.str "a") (.str "u")
      = .error (.validationError "Conversation is already pinned") := by
  rfl

/-- Claim C2 (amended).  Unpinning an id that is not pinned leaves the store
unchanged in both generations; the unvalidated generation returns `false`,
the validated generation raises a `ValidationError`
("Conversation is not pinned") instead of returning `false`. -/
theorem unpin_not_pinned (st : StoreState) (id : String)
    (hid : id ≠ "") (hp : hasKey st.mem id = false) :
    unpinConversationB st (.str id) = (false, st)
    ∧ unpinConversationV st (.str id)
        = .error (.validationError "Conversation is not pinned") := by
  constructor
  · simp [unpinConversationB, isConversationPinnedB, JsArg.coerce, hp]
  · simp [unpinConversationV, isConversationPinnedV,
      JsArg.toBool, JsArg.isString, JsArg.coerce, hid, hp]

/-- Claim C2 witness: unpinning `"a"` from an empty store. -/
theorem unpin_not_pinned_witness :
    ("a" : String) ≠ "" ∧ hasKey [] "a" = false
    ∧ (unpinConversationB ⟨[], none⟩ (.str "a") = (false, ⟨[], none⟩)
      ∧ unpinConversationV ⟨[], none⟩ (.str "a")
        = .error (.validationError "Conversation is not pinned")) :=
  ⟨by decide, by decide,
    unpin_not_pinned ⟨[], none⟩ "a" (by decide) (by decide)⟩

/-- Claim C2 counterexample.  The claim says unpinning a not-pinned id
"returns false and leaves the set unchanged (a no-op, not an error)"; the
validated `unpinConversation` (part_003) instead raises a
`ValidationError` at this concrete input. -/
theorem unpin_not_pinned_claim_cex :
    unpinConversationV ⟨[], none⟩ (.str "a")
      = .error (.validationError "Conversation is not pinned") := by
  rfl

/-- Claim C3 (amended).  For a valid `(id, title)` whose id is **not already
pinned**, pinning and then unpinning restores the in-memory pinned set
exactly, in both generations (in the validated generation both calls
succeed and return `true`). -/
theorem pin_unpin_round_trip (st : StoreState) (id title : String)
    (hid : id ≠ "") (htitle : title ≠ "") (hnp : hasKey st.mem id = false) :
    (unpinConversationB (pinConversationB st (.str id) (.str title)).2
        (.str id)).2.mem = st.mem
    ∧ ∃ st1 st2,
        pinConversationV st (.str id) (.str title) = .ok (true, st1)
        ∧ unpinConversationV st1 (.str id) = .ok (true, st2)
        ∧ st2.mem = st.mem := by
  have hins : insertKey st.mem id title = st.mem ++ [(id, title)] :=
    insertKey_of_not_hasKey st.mem id title hnp
  have hdel : deleteKey (st.mem ++ [(id, title)]) id = st.mem :=
    deleteKey_append_self st.mem id title hnp
  constructor
  · have hpin : pinConversationB st (.str id) (.str title)
        = (true, { mem := st.mem ++ [(id, title)],
                   blob := savePinnedConversations (st.mem ++ [(id, title)]) }) := by
      simp [pinConversationB, isConversationPinnedB, JsArg.coerce, JsArg.toBool,
        hid, htitle, hnp, hins]
    rw [hpin]
    simp [unpinConversationB, isConversationPinnedB, JsArg.coerce, JsArg.toBool,
      hid, hasKey_append_self, hdel]
  · refine ⟨StoreState.mk (st.mem ++ [(id, title)])
        (savePinnedConversations (st.mem ++ [(id, title)])),
      StoreState.mk st.mem (savePinnedConversations st.mem), ?_, ?_, rfl⟩
    · simp [pinConversationV, validateConversationData, isConversationPinnedV,
        JsArg.toBool, JsArg.isString, JsArg.coerce, hid, htitle, hnp, hins]
    · simp [unpinConversationV, isConversationPinnedV,
        JsArg.toBool, JsArg.isString, JsArg.coerce, hid, hasKey_append_self, hdel]

/-- Claim C3 witness: pin `"a"` into an empty store, then unpin it. -/
theorem pin_unpin_round_trip_witness :
    ("a" : String) ≠ "" ∧ ("t" : String) ≠ "" ∧ hasKey [] "a" = false
    ∧ ((unpinConversationB (pinConversationB ⟨[], none⟩ (.str "a") (.str "t")).2
          (.str "a")).2.mem = ([] : PinnedMap)
      ∧ ∃ st1 st2,
          pinConversationV ⟨[], none⟩ (.str "a") (.str "t") = .ok (true, st1)
          ∧ unpinConversationV st1 (.str "a") = .ok (true, st2)
          ∧ st2.mem = ([] : PinnedMap)) :=
  ⟨by decide, by decide, by decide,
    pin_unpin_round_trip ⟨[], none⟩ "a" "t" (by decide) (by decide) (by decide)⟩

/-- Claim C3 counterexample.  The claim quantifies over *any* valid
`(id, title)`; when the id is already pinned, the unvalidated generation
makes the pin a no-op and the unpin then removes the pre-existing entry, so
the sequence does not restore the pre-pin set. -/
theorem pin_unpin_round_trip_claim_cex :
    (unpinConversationB
        (pinConversationB ⟨[("a", "t")], none⟩ (.str "a") (.str "u")).2
        (.str "a")).2.mem
      ≠ (StoreState.mk [("a", "t")] none).mem := by
  decide

/-- Claim C4 (amended).  In the validated generation, `pinConversation` with
an empty or non-string id or title raises a `ValidationError` (and, the
error being raised before any mutation, returns no new store state, so the
stored set is unchanged).  In the unvalidated generation such a call does
not fail: whenever the offending argument is falsy (for example the empty
string) it merely returns `false`, leaving the store unchanged. -/
theorem pin_invalid_args (st : StoreState) (id title : JsArg)
    (hinv : id.isString = false ∨ id = .str ""
      ∨ title.isString = false ∨ title = .str "") :
    (∃ msg, pinConversationV st id title = .error (.validationError msg))
    ∧ (id.toBool = false ∨ title.toBool = false →
        pinConversationB st id title = (false, st)) := by
  constructor
  · rcases hinv with h | h | h | h
    · refine ⟨"Invalid conversation ID", ?_⟩
      simp [pinConversationV, validateConversationData, h]
    · refine ⟨"Invalid conversation ID", ?_⟩
      subst h
      simp [pinConversationV, validateConversationData, JsArg.toBool]
    · by_cases hid : (!id.toBool || !id.isString) = true
      · exact ⟨"Invalid conversation ID", by
          simp [pinConversationV, validateConversationData, hid]⟩
      · refine ⟨"Invalid conversation title", ?_⟩
        rw [Bool.not_eq_true, Bool.or_eq_false_iff] at hid
        obtain ⟨h1, h2⟩ := hid
        rw [Bool.not_eq_false'] at h1 h2
        simp [pinConversationV, validateConversationData, h1, h2, h]
    · by_cases hid : (!id.toBool || !id.isString) = true
      · exact ⟨"Invalid conversation ID", by
          simp [pinConversationV, validateConversationData, hid]⟩
      · refine ⟨"Invalid conversation title", ?_⟩
        subst h
        rw [Bool.not_eq_true, Bool.or_eq_false_iff] at hid
        obtain ⟨h1, h2⟩ := hid
        rw [Bool.not_eq_false'] at h1 h2
        have h3 : (JsArg.str "").toBool = false := by decide
        simp [pinConversationV, validateConversationData, h1, h2, h3]
  · intro hfalsy
    rcases hfalsy with h | h
    · simp [pinConversationB, h]
    · simp [pinConversationB, h]

/-- Claim C4 witness: pinning with an empty title. -/
theorem pin_invalid_args_witness :
    ((JsArg.str "a").isString = false ∨ JsArg.str "a" = .str ""
      ∨ (JsArg.str "").isString = false ∨ JsArg.str "" = .str "")
    ∧ ((∃ msg, pinConversationV ⟨[], none⟩ (.str "a") (.str "")
          = .error (.validationError msg))
      ∧ ((JsArg.str "a").toBool = false ∨ (JsArg.str "").toBool = false →
          pinConversationB ⟨[], none⟩ (.str "a") (.str "")
            = (false, ⟨[], none⟩))) :=
  ⟨by simp, pin_invalid_args ⟨[], none⟩ (.str "a") (.str "") (by simp)⟩

/-- Claim C4 counterexample.  The claim says such a call "fails with a
ValidationFailure"; the unvalidated `pinConversation` (part_002) with an
empty title does not fail at all — it returns `false`. -/
theorem pin_invalid_args_claim_cex :
    pinConversationB ⟨[], none⟩ (.str "a") (.str "")
      = (false, ⟨[], none⟩) := by
  rfl

/-- Claim C10.  The validated `isConversationPinned` raises a
`ValidationError` for every empty or non-string id, and for a valid
(non-empty string) id it answers `true` exactly when the id occurs as a key
of the pinned map. -/
theorem is_pinned_validated (m : PinnedMap) (id : JsArg) :
    ((id.isString = false ∨ id = .str "") →
      isConversationPinnedV m id
        = .error (.validationError "Invalid conversation ID"))
    ∧ (∀ s : String, id = .str s → s ≠ "" →
      (isConversationPinnedV m id = .ok true ↔ ∃ t, (s, t) ∈ m)) := by
  constructor
  · intro h
    rcases h with h | h
    · simp [isConversationPinnedV, h]
    · subst h
      simp [isConversationPinnedV, JsArg.toBool]
  · intro s hs hne
    subst hs
    simp only [isConversationPinnedV, JsArg.toBool, JsArg.isString, JsArg.coerce]
    rw [if_neg (by simp [hne])]
    constructor
    · intro h
      have hk : hasKey m s = true := by
        cases hhk : hasKey m s
        · rw [hhk] at h
          exact absurd (Except.ok.injEq _ _ ▸ h) (by simp)
        · rfl
      simp only [hasKey, List.any_eq_true] at hk
      obtain ⟨e, he, hek⟩ := hk
      refine ⟨e.2, ?_⟩
      have h1 : e.1 = s := by simpa using hek
      rw [← h1]
      exact he
    · intro ⟨t, ht⟩
      have hk : hasKey m s = true := by
        simp only [hasKey, List.any_eq_true]
        exact ⟨(s, t), ht, by simp⟩
      rw [hk]

/-- Claim C10 witness: a pinned id `"a"` in a one-entry store. -/
theorem is_pinned_validated_witness :
    isConversationPinnedV [("a", "t")] (.str "a") = .ok true
      ↔ ∃ t, ("a", t) ∈ ([("a", "t")] : PinnedMap) :=
  (is_pinned_validated [("a", "t")] (.str "a")).2 "a" rfl (by decide)

/-! ## Lemmas about the event bus -/

theorem map_if_id (hs : List (String × List Entry)) (ev : String)
    (es : List Entry) (h : ∀ q ∈ hs, (q.1 == ev) = false) :
    hs.map (fun p => if p.1 == ev then (ev, es) else p) = hs := by
  induction hs with
  | nil => rfl
  | cons p hs ih =>
    have hp := h p (by simp)
    simp only [List.map_cons, hp, Bool.false_eq_true, if_false]
    rw [ih (fun q hq => h q (by simp [hq]))]

theorem map_setEntries_id (hs : List (String × List Entry)) (ev : String)
    (es : List Entry)
    (hfind : hs.find? (fun p => p.1 == ev) = some (ev, es))
    (hnd : (hs.map (fun p => p.1)).Nodup) :
    hs.map (fun p => if p.1 == ev then (ev, es) else p) = hs := by
  induction hs with
  | nil => simp at hfind
  | cons p hs ih =>
    by_cases hp : (p.1 == ev) = true
    · have hstep : List.find? (fun q => q.1 == ev) (p :: hs) = some p :=
        List.find?_cons_of_pos _ hp
      rw [hstep] at hfind
      have hpe : p = (ev, es) := by injection hfind
      have hev : p.1 = ev := by simpa using hp
      have hnotin : ∀ q ∈ hs, (q.1 == ev) = false := by
        intro q hq
        have hmem : q.1 ∈ hs.map (fun r => r.1) := List.mem_map_of_mem _ hq
        have hnotmem : p.1 ∉ hs.map (fun r => r.1) := (List.nodup_cons.mp hnd).1
        by_contra hcon
        rw [Bool.not_eq_false, beq_iff_eq] at hcon
        apply hnotmem
        rw [hev, ← hcon]
        exact hmem
      simp only [List.map_cons, hp, if_true]
      rw [map_if_id hs ev es hnotin, ← hpe]
    · have hstep : List.find? (fun q => q.1 == ev) (p :: hs)
          = List.find? (fun q => q.1 == ev) hs :=
        List.find?_cons_of_neg _ hp
      rw [hstep] at hfind
      rw [Bool.not_eq_true] at hp
      simp only [List.map_cons, hp, Bool.false_eq_true, if_false]
      rw [ih hfind (List.nodup_cons.mp hnd).2]

theorem any_of_find (hs : List (String × List Entry)) (ev : String)
    (es : List Entry)
    (hfind : hs.find? (fun p => p.1 == ev) = some (ev, es)) :
    hs.any (fun p => p.1 == ev) = true := by
  have hmem : (ev, es) ∈ hs := List.mem_of_find?_eq_some hfind
  exact List.any_eq_true.mpr ⟨(ev, es), hmem, by simp⟩

theorem setEntries_self (hs : List (String × List Entry)) (ev : String)
    (es : List Entry)
    (hfind : hs.find? (fun p => p.1 == ev) = some (ev, es))
    (hnd : (hs.map (fun p => p.1)).Nodup) :
    setEntries hs ev es = hs := by
  unfold setEntries
  rw [if_pos (any_of_find hs ev es hfind)]
  exact map_setEntries_id hs ev es hfind hnd

theorem find_map_replace (hs : List (String × List Entry)) (ev : String)
    (l : List Entry) (hany : hs.any (fun p => p.1 == ev) = true) :
    (hs.map (fun p => if p.1 == ev then (ev, l) else p)).find?
        (fun p => p.1 == ev) = some (ev, l) := by
  induction hs with
  | nil => simp at hany
  | cons p hs ih =>
    by_cases hp : (p.1 == ev) = true
    · simp only [List.map_cons, hp, if_true]
      rw [List.find?_cons_of_pos _ (by simp)]
    · rw [Bool.not_eq_true] at hp
      rw [List.any_cons, hp, Bool.false_or] at hany
      simp only [List.map_cons, hp, Bool.false_eq_true, if_false]
      rw [List.find?_cons_of_neg _ (by simp [hp])]
      exact ih hany

theorem find_append_last (hs : List (String × List Entry)) (ev : String)
    (l : List Entry) (hnone : hs.any (fun p => p.1 == ev) = false) :
    (hs ++ [(ev, l)]).find? (fun p => p.1 == ev) = some (ev, l) := by
  induction hs with
  | nil =>
    rw [List.nil_append, List.find?_cons_of_pos _ (by simp)]
  | cons p hs ih =>
    rw [List.any_cons, Bool.or_eq_false_iff] at hnone
    rw [List.cons_append, List.find?_cons_of_neg _ (by simp [hnone.1])]
    exact ih hnone.2

theorem find_setEntries (hs : List (String × List Entry)) (ev : String)
    (l : List Entry) :
    (setEntries hs ev l).find? (fun p => p.1 == ev) = some (ev, l) := by
  unfold setEntries
  by_cases hany : hs.any (fun p => p.1 == ev) = true
  · rw [if_pos hany]
    exact find_map_replace hs ev l hany
  · rw [if_neg hany]
    rw [Bool.not_eq_true] at hany
    exact find_append_last hs ev l hany

theorem entriesOf_setEntries (hs : List (String × List Entry)) (n : Nat)
    (ev : String) (l : List Entry) :
    entriesOf ⟨setEntries hs ev l, n⟩ ev = l := by
  show (((setEntries hs ev l).find? (fun p => p.1 == ev)).map
      (fun p => p.2)).getD [] = l
  rw [find_setEntries]
  rfl

theorem setDelete_of_fresh (es : List Entry) (tok : Nat)
    (h : ∀ e ∈ es, e.token ≠ tok) : setDelete es tok = es := by
  apply List.filter_eq_self.mpr
  intro e he
  simpa using h e he

theorem foldl_setDelete_of_lt (n : Nat) (es : List Entry) (t0 : Nat)
    (h : ∀ e ∈ es, e.token < t0) :
    (List.range n).foldl (fun es i => setDelete es (t0 + i)) es = es := by
  induction n with
  | zero => rfl
  | succ n ih =>
    rw [List.range_succ, List.foldl_append, ih]
    simp only [List.foldl_cons, List.foldl_nil]
    apply setDelete_of_fresh
    intro e he
    have := h e he
    omega

/-- The load-bearing fact behind C9: under well-formedness, `off` leaves
the handler map untouched, because every `Set.delete` call receives a
freshly allocated object that is reference-equal to no stored entry. -/
theorem EventManager_off_handlers (st : EMState) (ev : String) (h : Nat)
    (hwf : st.wf) :
    (EventManager.off st ev h).handlers = st.handlers := by
  unfold EventManager.off
  cases hfind : st.handlers.find? (fun p => p.1 == ev) with
  | none => rfl
  | some p =>
    simp only
    have hmem : p ∈ st.handlers := List.mem_of_find?_eq_some hfind
    have htok : ∀ e ∈ p.2, e.token < st.nextToken := hwf.1 p hmem
    rw [foldl_setDelete_of_lt _ p.2 st.nextToken htok]
    have hev : p.1 = ev := by
      have := List.find?_some hfind
      simpa using this
    have hfind2 : st.handlers.find? (fun q => q.1 == ev) = some (ev, p.2) := by
      rw [hfind]
      congr 1
      cases p
      simp_all
    exact setEntries_self st.handlers ev p.2 hfind2 hwf.2

theorem EventManager_off_nextToken (st : EMState) (ev : String) (h : Nat) :
    st.nextToken ≤ (EventManager.off st ev h).nextToken := by
  unfold EventManager.off
  cases hfind : st.handlers.find? (fun p => p.1 == ev) with
  | none => exact Nat.le_refl _
  | some p => exact Nat.le_add_right _ _

theorem EMState_wf_off (st : EMState) (ev : String) (h : Nat)
    (hwf : st.wf) : (EventManager.off st ev h).wf := by
  have hh := EventManager_off_handlers st ev h hwf
  have hn := EventManager_off_nextToken st ev h
  constructor
  · intro p hp e he
    rw [hh] at hp
    exact Nat.lt_of_lt_of_le (hwf.1 p hp e he) hn
  · rw [hh]
    exact hwf.2

theorem runHandlers_invoked (throws : Nat → Bool) (ev : String)
    (l : List Entry) : ∀ st : EMState,
    (runHandlers throws ev st l).invoked = l.map Entry.handler := by
  induction l with
  | nil => intro st; rfl
  | cons e l ih =>
    intro st
    by_cases ht : throws e.handler = true
    · simp [runHandlers, ht, ih]
    · rw [Bool.not_eq_true] at ht
      simp [runHandlers, ht, ih]

theorem runHandlers_logged (throws : Nat → Bool) (ev : String)
    (l : List Entry) : ∀ st : EMState,
    (runHandlers throws ev st l).logged
      = (l.filter (fun e => throws e.handler)).map Entry.handler := by
  induction l with
  | nil => intro st; rfl
  | cons e l ih =>
    intro st
    by_cases ht : throws e.handler = true
    · simp [runHandlers, ht, List.filter_cons, ih]
    · rw [Bool.not_eq_true] at ht
      simp [runHandlers, ht, List.filter_cons, ih]

theorem runHandlers_state (throws : Nat → Bool) (ev : String)
    (l : List Entry) : ∀ st : EMState, st.wf →
    (runHandlers throws ev st l).state.handlers = st.handlers
    ∧ (runHandlers throws ev st l).state.wf := by
  induction l with
  | nil => intro st hwf; exact ⟨rfl, hwf⟩
  | cons e l ih =>
    intro st hwf
    by_cases ht : throws e.handler = true
    · simpa [runHandlers, ht] using ih st hwf
    · rw [Bool.not_eq_true] at ht
      by_cases ho : e.once = true
      · have hwf1 := EMState_wf_off st ev e.handler hwf
        have hh1 := EventManager_off_handlers st ev e.handler hwf
        have := ih (EventManager.off st ev e.handler) hwf1
        simp only [runHandlers, ht, Bool.false_eq_true, if_false, ho, if_true]
        exact ⟨this.1.trans hh1, this.2⟩
      · rw [Bool.not_eq_true] at ho
        simpa [runHandlers, ht, ho] using ih st hwf

theorem entriesOf_congr (st st2 : EMState) (ev : String)
    (h : st.handlers = st2.handlers) : entriesOf st ev = entriesOf st2 ev := by
  unfold entriesOf
  rw [h]

/-! ## Claims about the event bus -/

/-- Claim C7.  `emit` invokes every handler registered for the event type,
synchronously (the model is a pure fold) and in registration order: the
invocation list equals the per-event entry list, whatever the set of
throwing handlers is, so a handler that throws is logged and does not
prevent any later handler from running.  The final conjunct ties list order
to registration order: `on` appends the new entry at the end. -/
theorem emit_fanout (st : EMState) (ev : String) (throws : Nat → Bool) :
    (EventManager.emit st ev throws).invoked = handlersOf st ev
    ∧ (EventManager.emit st ev throws).logged
        = ((entriesOf st ev).filter (fun e => throws e.handler)).map Entry.handler
    ∧ (∀ h once, entriesOf (EventManager.on st ev h once) ev
        = entriesOf st ev ++ [Entry.mk st.nextToken h once]) := by
  refine ⟨?_, ?_, ?_⟩
  · exact runHandlers_invoked throws ev (entriesOf st ev) st
  · exact runHandlers_logged throws ev (entriesOf st ev) st
  · intro h once
    have heq : EventManager.on st ev h once
        = ⟨setEntries st.handlers ev
            (entriesOf st ev ++ [Entry.mk st.nextToken h once]),
          st.nextToken + 1⟩ := rfl
    rw [heq, entriesOf_setEntries]

/-- Claim C9.  `off` never removes a registration: the handler map is
unchanged, a subsequent `emit` still invokes the handler, and since `emit`
(whose `once` bookkeeping goes through the same broken `off`) also leaves
the handler map unchanged, every handler — including one registered with
`once: true`, such as the internal handler of `waitForEvent` — is invoked
again by every later emission. -/
theorem off_never_removes (st : EMState) (ev : String) (h : Nat)
    (throws throws2 : Nat → Bool) (hwf : st.wf)
    (hreg : h ∈ handlersOf st ev) :
    (EventManager.off st ev h).handlers = st.handlers
    ∧ h ∈ (EventManager.emit (EventManager.off st ev h) ev throws).invoked
    ∧ (EventManager.emit st ev throws).state.handlers = st.handlers
    ∧ h ∈ (EventManager.emit (EventManager.emit st ev throws).state ev
        throws2).invoked := by
  have hoff := EventManager_off_handlers st ev h hwf
  refine ⟨hoff, ?_, ?_, ?_⟩
  · rw [EventManager.emit, runHandlers_invoked,
      entriesOf_congr (EventManager.off st ev h) st ev hoff]
    exact hreg
  · exact (runHandlers_state throws ev (entriesOf st ev) st hwf).1
  · rw [EventManager.emit, runHandlers_invoked,
      entriesOf_congr (EventManager.emit st ev throws).state st ev
        (runHandlers_state throws ev (entriesOf st ev) st hwf).1]
    exact hreg

/-- Claim C9 witness: `sampleEM` has handler `1` (normal) and handler `2`
(`once: true`); with handler `1` throwing on the first emission, `off` and
both emissions leave the registration intact and keep invoking handler
`2`. -/
theorem off_never_removes_witness :
    sampleEM.wf ∧ 2 ∈ handlersOf sampleEM "e"
    ∧ ((EventManager.off sampleEM "e" 2).handlers = sampleEM.handlers
      ∧ 2 ∈ (EventManager.emit (EventManager.off sampleEM "e" 2) "e"
          (fun n => n == 1)).invoked
      ∧ (EventManager.emit sampleEM "e" (fun n => n == 1)).state.handlers
          = sampleEM.handlers
      ∧ 2 ∈ (EventManager.emit
          (EventManager.emit sampleEM "e" (fun n => n == 1)).state "e"
          (fun _ => false)).invoked) :=
  ⟨by decide, by decide,
    off_never_removes sampleEM "e" 2 (fun n => n == 1) (fun _ => false)
      (by decide) (by decide)⟩

/-! ## Claims about the location watcher -/

/-- Claim C8 (amended).  In the validated `URLTracker`, construction with a
non-`RegExp` matcher fails with a `URLError` before any observer is
attached, and `setupOnChangeCallback` with a non-function fails with a
`URLError` before any assignment, so no callback registration takes
effect; with a valid matcher (and the title element present) construction
succeeds with the observer attached and no callback.  The unvalidated
`URLTracker`, by contrast, accepts any matcher and starts observing. -/
theorem urltracker_validation (titleExists : Bool) (st : URLTrackerState)
    (i : Nat) :
    URLTracker.constructV titleExists .notRegExp
        = .error (.urlError "Invalid URL pattern provided")
    ∧ URLTracker.setupOnChangeCallbackV st .notFunc
        = .error (.urlError "Invalid callback provided")
    ∧ URLTracker.constructV true (.regExp i)
        = .ok ⟨.regExp i, none, true⟩ :=
  ⟨rfl, rfl, rfl⟩

/-- Claim C8 counterexample.  The claim says constructing with a matcher
that is not a valid pattern object "fails with InvalidPattern … no
observation … takes effect"; the unvalidated `URLTracker` constructor
(part_004, first class) succeeds on a non-`RegExp` matcher and attaches
the observer. -/
theorem urltracker_claim_cex :
    URLTracker.constructB true .notRegExp
      = ⟨.notRegExp, none, true⟩ := rfl

/-! ## Serialization round trip -/

theorem skipWs_cons_not (c : Char) (cs : List Char) (h : isWs c = false) :
    skipWs (c :: cs) = c :: cs := by
  simp [skipWs, h]

theorem parseStringAux_escape (c : Char) (f : Nat) (rest acc : List Char) :
    parseStringAux (f + 1) (escapeChar c ++ rest) acc
      = parseStringAux f rest (c :: acc) := by
  by_cases h1 : c = '"'
  · subst h1; rfl
  by_cases h2 : c = '\\'
  · subst h2; rfl
  by_cases h8 : c.toNat < 32
  · obtain ⟨n, hn, rfl⟩ : ∃ n, n < 32 ∧ Char.ofNat n = c :=
      ⟨c.toNat, h8, Char.ofNat_toNat c⟩
    interval_cases n <;> rfl
  · have h3 : c.toNat ≠ 8 := by omega
    have h4 : c.toNat ≠ 9 := by omega
    have h5 : c.toNat ≠ 10 := by omega
    have h6 : c.toNat ≠ 12 := by omega
    have h7 : c.toNat ≠ 13 := by omega
    have hesc : escapeChar c = [c] := by
      simp [escapeChar, h1, h2, h3, h4, h5, h6, h7, h8]
    rw [hesc, List.cons_append, List.nil_append]
    simp [parseStringAux, h1, h2, h8]

theorem escapeChar_length_pos (c : Char) : 1 ≤ (escapeChar c).length := by
  unfold escapeChar
  split_ifs <;> simp

theorem length_le_flatMap_escape (l : List Char) :
    l.length ≤ (l.flatMap escapeChar).length := by
  induction l with
  | nil => simp
  | cons c l ih =>
    rw [List.flatMap_cons, List.length_append, List.length_cons]
    have := escapeChar_length_pos c
    omega

theorem parseStringAux_quote (l : List Char) : ∀ (fuel : Nat)
    (acc rest : List Char), l.length < fuel →
    parseStringAux fuel (l.flatMap escapeChar ++ '"' :: rest) acc
      = some (String.mk (acc.reverse ++ l), rest) := by
  induction l with
  | nil =>
    intro fuel acc rest hf
    match fuel, hf with
    | f + 1, _ =>
      simp [parseStringAux]
  | cons c l ih =>
    intro fuel acc rest hf
    match fuel, hf with
    | f + 1, hf =>
      rw [List.flatMap_cons, List.append_assoc, parseStringAux_escape,
        ih f (c :: acc) rest (by simp at hf; omega)]
      simp

theorem parseJString_quote (s : String) (rest : List Char) :
    parseJString (quoteString s ++ rest) = some (s, rest) := by
  rw [show parseJString (quoteString s ++ rest)
      = parseStringAux (((s.data.flatMap escapeChar ++ ['"']) ++ rest).length + 1)
          ((s.data.flatMap escapeChar ++ ['"']) ++ rest) [] from rfl]
  rw [List.append_assoc, List.singleton_append]
  have hlen : s.data.length
      < (s.data.flatMap escapeChar ++ '"' :: rest).length + 1 := by
    have h := length_le_flatMap_escape s.data
    simp only [List.length_append]
    omega
  rw [parseStringAux_quote s.data _ [] rest hlen]
  rfl

theorem skipWs_quote_append (s : String) (x : List Char) :
    skipWs (quoteString s ++ x) = quoteString s ++ x :=
  skipWs_cons_not '"' _ (by decide)

theorem parseMember_quote (k v : String) (x : List Char) :
    parseMember (quoteString k ++ (':' :: (quoteString v ++ x)))
      = some ((k, v), x) := by
  have h1 : skipWs (':' :: (quoteString v ++ x)) = ':' :: (quoteString v ++ x) :=
    skipWs_cons_not _ _ (by decide)
  have h2 := skipWs_quote_append v x
  simp only [parseMember, parseJString_quote, h1, h2, if_pos]

theorem stringifyMembers_cons_head (e : String × String) (m : PinnedMap) :
    ∃ t, stringifyMembers (e :: m) = '"' :: t := by
  cases m with
  | nil => exact ⟨_, rfl⟩
  | cons e2 m2 => exact ⟨_, rfl⟩

theorem stringifyEntry_length_pos (e : String × String) :
    1 ≤ (stringifyEntry e).length := by
  show 1 ≤ (quoteString e.1 ++ ':' :: quoteString e.2).length
  rw [List.length_append]
  simp [quoteString]
  omega

theorem length_le_stringifyMembers (m : PinnedMap) :
    m.length ≤ (stringifyMembers m).length := by
  induction m with
  | nil => simp [stringifyMembers]
  | cons e m ih =>
    cases m with
    | nil =>
      have := stringifyEntry_length_pos e
      simpa [stringifyMembers] using this
    | cons e2 m2 =>
      show (e :: e2 :: m2).length
        ≤ (stringifyEntry e ++ ',' :: stringifyMembers (e2 :: m2)).length
      rw [List.length_append, List.length_cons, List.length_cons, List.length_cons]
      have h1 := stringifyEntry_length_pos e
      have h2 : (e2 :: m2).length ≤ (stringifyMembers (e2 :: m2)).length := ih
      rw [List.length_cons] at h2
      omega

theorem parseMembersAux_stringify (m : PinnedMap) : ∀ (fuel : Nat)
    (acc : PinnedMap) (rest : List Char), m ≠ [] → m.length ≤ fuel →
    parseMembersAux fuel (stringifyMembers m ++ rbrace :: rest) acc
      = some (acc ++ m, rest) := by
  induction m with
  | nil =>
    intro fuel acc rest hne _
    exact absurd rfl hne
  | cons e m ih =>
    intro fuel acc rest hne hlen
    match fuel, hlen with
    | f + 1, hlen =>
      cases m with
      | nil =>
        have hshape : stringifyMembers [e] ++ rbrace :: rest
            = quoteString e.1 ++ (':' :: (quoteString e.2 ++ (rbrace :: rest))) := by
          show (quoteString e.1 ++ ':' :: quoteString e.2) ++ rbrace :: rest = _
          simp [List.append_assoc]
        have hsk : skipWs (rbrace :: rest) = rbrace :: rest :=
          skipWs_cons_not _ _ (by decide)
        have hne1 : rbrace ≠ ',' := by decide
        rw [hshape]
        simp only [parseMembersAux, parseMember_quote]
        simp [hsk, hne1]
      | cons e2 m2 =>
        have hshape : stringifyMembers (e :: e2 :: m2) ++ rbrace :: rest
            = quoteString e.1 ++ (':' :: (quoteString e.2
              ++ (',' :: (stringifyMembers (e2 :: m2) ++ rbrace :: rest)))) := by
          show (quoteString e.1 ++ ':' :: quoteString e.2)
              ++ ',' :: stringifyMembers (e2 :: m2) ++ rbrace :: rest = _
          simp [List.append_assoc]
        have hsk0 : skipWs (',' :: (stringifyMembers (e2 :: m2) ++ rbrace :: rest))
            = ',' :: (stringifyMembers (e2 :: m2) ++ rbrace :: rest) :=
          skipWs_cons_not _ _ (by decide)
        obtain ⟨t, ht⟩ := stringifyMembers_cons_head e2 m2
        have hsk : skipWs (stringifyMembers (e2 :: m2) ++ rbrace :: rest)
            = stringifyMembers (e2 :: m2) ++ rbrace :: rest := by
          rw [ht]
          exact skipWs_cons_not _ _ (by decide)
        have hih := ih f (acc ++ [e]) rest (by simp)
          (by simp only [List.length_cons] at hlen ⊢; omega)
        rw [hshape]
        simp only [parseMembersAux, parseMember_quote]
        simp [hsk0, hsk, hih]

theorem parsePinned_stringify (m : PinnedMap) :
    parsePinned (stringifyPinned m) = some m := by
  cases m with
  | nil => rfl
  | cons e m2 =>
    obtain ⟨t, ht⟩ := stringifyMembers_cons_head e m2
    have hsk0 : skipWs ((stringifyPinned (e :: m2)).data)
        = lbrace :: (stringifyMembers (e :: m2) ++ [rbrace]) :=
      skipWs_cons_not _ _ (by decide)
    have hsk1 : skipWs (stringifyMembers (e :: m2) ++ [rbrace])
        = '"' :: (t ++ [rbrace]) := by
      rw [ht]
      exact skipWs_cons_not _ _ (by decide)
    have hne2 : ('"' : Char) ≠ rbrace := by decide
    have hfuel : (e :: m2).length
        ≤ (stringifyMembers (e :: m2) ++ [rbrace]).length + 1 := by
      have h1 := length_le_stringifyMembers (e :: m2)
      rw [List.length_append]
      omega
    have hmem := parseMembersAux_stringify (e :: m2)
        ((stringifyMembers (e :: m2) ++ [rbrace]).length + 1) [] [] (by simp) hfuel
    have hmem2 : parseMembersAux
        ((stringifyMembers (e :: m2) ++ [rbrace]).length + 1)
        ('"' :: (t ++ [rbrace])) [] = some ([] ++ (e :: m2), []) := by
      rw [show ('"' : Char) :: (t ++ [rbrace])
          = stringifyMembers (e :: m2) ++ rbrace :: [] from by rw [ht]; rfl]
      exact hmem
    have hmem3 : parseMembersAux ((stringifyMembers (e :: m2)).length + 1 + 1)
        ('"' :: (t ++ [rbrace])) [] = some ([] ++ (e :: m2), []) := by
      rw [show (stringifyMembers (e :: m2)).length + 1 + 1
          = (stringifyMembers (e :: m2) ++ [rbrace]).length + 1 from by
        rw [List.length_append, List.length_singleton]]
      exact hmem2
    have hsknil : skipWs ([] : List Char) = [] := rfl
    simp [parsePinned, hsk0, hsk1, hne2, hmem3, hsknil]

theorem parseTop_stringify (m : PinnedMap) :
    parseTop (stringifyPinned m) = some (some m) := by
  have hsk0 : skipWs (stringifyPinned m).data
      = lbrace :: (stringifyMembers m ++ [rbrace]) :=
    skipWs_cons_not _ _ (by decide)
  unfold parseTop
  rw [if_neg, parsePinned_stringify]
  · rfl
  · intro hcon
    have h1 := hcon.1
    rw [hsk0] at h1
    simp only [List.take_succ_cons, List.cons.injEq] at h1
    exact absurd h1.1 (by decide)

theorem stringifyPinned_ne_empty (m : PinnedMap) : stringifyPinned m ≠ "" := by
  intro hcon
  have : (stringifyPinned m).data = ("" : String).data := by rw [hcon]
  simp [stringifyPinned] at this

/-- Serialize-then-load round trip, at the level of a single map. -/
theorem load_of_save (mem : PinnedMap) :
    loadPinnedConversationsV (.value (savePinnedConversations mem))
      = .ok (some mem)
    ∧ loadPinnedConversationsB (.value (savePinnedConversations mem))
      = .ok mem := by
  have hne := stringifyPinned_ne_empty mem
  have hpt := parseTop_stringify mem
  constructor
  · simp [loadPinnedConversationsV, savePinnedConversations, hne, hpt]
  · simp [loadPinnedConversationsB, savePinnedConversations, hpt]

/-! ## Claims about persistence round trips and load failures -/

/-- Claim C6.  After any sequence of pin/unpin operations (an unsuccessful
operation being exactly a no-op, the states reached this way are the states
reached by sequences of successful operations on valid identifiers and
titles), serializing the in-memory set and loading it back through either
generation of `loadPinnedConversations` reproduces exactly the in-memory
set: serialize-then-deserialize is lossless, including titles containing
quotes, backslashes or control characters. -/
theorem persistence_round_trip (ops : List PinOp) :
    loadPinnedConversationsV
        (.value (savePinnedConversations (runOps ops ⟨[], none⟩).mem))
      = .ok (some (runOps ops ⟨[], none⟩).mem)
    ∧ loadPinnedConversationsB
        (.value (savePinnedConversations (runOps ops ⟨[], none⟩).mem))
      = .ok (runOps ops ⟨[], none⟩).mem :=
  load_of_save (runOps ops ⟨[], none⟩).mem

/-- Claim C5 (amended).  The validated `loadPinnedConversations` returns the
empty set when no blob is stored under the key, and fails with a
`StorageError` — never any other error — both when the underlying storage
throws and when the stored data is unparsable.  The unvalidated generation
also returns the empty set when the key is absent, but has no `try`/`catch`:
it propagates the raw storage error or `SyntaxError` unwrapped. -/
theorem load_error_semantics (s : String) (hs : s ≠ "")
    (hbad : parseTop s = none) :
    loadPinnedConversationsV (.value none) = .ok (some [])
    ∧ loadPinnedConversationsV .throws
        = .error (.storageError "Error accessing local storage")
    ∧ loadPinnedConversationsV (.value (some s))
        = .error (.storageError "Error accessing local storage")
    ∧ loadPinnedConversationsB (.value none) = .ok []
    ∧ loadPinnedConversationsB (.value (some s))
        = .error (.rawError "SyntaxError: JSON.parse") := by
  refine ⟨rfl, rfl, ?_, rfl, ?_⟩
  · simp [loadPinnedConversationsV, hs, hbad]
  · simp [loadPinnedConversationsB, hbad]

/-- Claim C5 witness: a lone opening brace is unparsable. -/
theorem load_error_semantics_witness :
    ("\x7b" : String) ≠ "" ∧ parseTop "\x7b" = none
    ∧ (loadPinnedConversationsV (.value none) = .ok (some [])
      ∧ loadPinnedConversationsV .throws
          = .error (.storageError "Error accessing local storage")
      ∧ loadPinnedConversationsV (.value (some "\x7b"))
          = .error (.storageError "Error accessing local storage")
      ∧ loadPinnedConversationsB (.value none) = .ok []
      ∧ loadPinnedConversationsB (.value (some "\x7b"))
          = .error (.rawError "SyntaxError: JSON.parse")) :=
  ⟨by decide, by decide, load_error_semantics "\x7b" (by decide) (by decide)⟩

/-- Claim C5 counterexample.  The claim says `load` "fails with a
StorageFailure (not any other error) whenever the underlying storage throws
or the stored data is unparsable"; the unvalidated
`loadPinnedConversations` (part_002) lets the raw `JSON.parse` error — not
a `StorageError` — escape on unparsable data. -/
theorem load_error_claim_cex :
    loadPinnedConversationsB (.value (some "\x7b"))
      = .error (.rawError "SyntaxError: JSON.parse")
    ∧ JsErr.rawError "SyntaxError: JSON.parse"
      ≠ .storageError "Error accessing local storage" := by
  exact ⟨rfl, by simp⟩

end PinChat
